import Mathlib

/- Shallow embedding of the branch-switcher core of `src/switch.ts`:
   branch-catalog construction (`getAllBranches`), checkout resolution
   (`switchToBranch`), and upstream-target resolution for the automatic
   rebase step (`rebaseBranch`).  Shell invocations are modelled as
   explicit inputs: the raw line listings for the two `git branch`
   commands, success booleans for the `git show-ref` probes, and an
   optional output string for `git symbolic-ref`. -/

namespace GitSwitch

/-- Drop leading whitespace characters from a character list. -/
def dropWs : List Char → List Char
  | [] => []
  | c :: cs => if c.isWhitespace then dropWs cs else c :: cs

/-- Trim whitespace from both ends of a character list. -/
def trimChars (cs : List Char) : List Char := (dropWs (dropWs cs).reverse).reverse

/-- The `.trim()` applied to every raw line and to the symbolic-ref output. -/
def trim (s : String) : String := ⟨trimChars s.data⟩

/-- JS `s.startsWith(pre)`. -/
def strStarts (s pre : String) : Bool := pre.data.isPrefixOf s.data

/-- JS `s.replace(/^pre/, "")`: one leading occurrence of `pre` stripped. -/
def stripLeading (pre s : String) : String :=
  if pre.data.isPrefixOf s.data then ⟨s.data.drop pre.data.length⟩ else s

/-- JS `branch.replace(/^origin\//, "")`, as at `src/switch.ts:110,152,159`. -/
def stripOrigin (s : String) : String := stripLeading "origin/" s

/-- JS `s.includes(needle)`: substring containment. -/
def containsSub (needle s : String) : Bool := decide (needle.data <:+: s.data)

/-- Remove the first occurrence of `pat` from a character list, if any. -/
def removeFirstAux (pat : List Char) : List Char → List Char
  | [] => []
  | c :: cs =>
      if pat.isPrefixOf (c :: cs) then (c :: cs).drop pat.length
      else c :: removeFirstAux pat cs

/-- JS plain-string `s.replace(pat, "")`: only the first occurrence goes. -/
def removeFirst (pat s : String) : String := ⟨removeFirstAux pat.data s.data⟩

/-- The record built for every branch (`src/switch.ts:69-75`). -/
structure BranchInfo where
  name : String
  displayName : String
  isLocal : Bool
  isRemote : Bool
  isCurrent : Bool
deriving Repr, DecidableEq

/-- Parse one trimmed, non-blank local listing line: the body of the `.map`
at `src/switch.ts:87-97`. -/
def parseLocalLine (branch : String) : BranchInfo :=
  let isCurrent := strStarts branch "* "
  let name := trim (stripLeading "* " branch)
  { name := name
    displayName := if isCurrent then name ++ " (current)" else name
    isLocal := true
    isRemote := false
    isCurrent := isCurrent }

/-- The local-listing pipeline at `src/switch.ts:83-97`: trim every line,
drop blanks, parse the rest. -/
def parseLocalLines (lines : List String) : List BranchInfo :=
  ((lines.map trim).filter (fun b => b ≠ "")).map parseLocalLine

/-- The body of the remote `.map` at `src/switch.ts:107-125`; `none` models
the `null` removed by the trailing `.filter`.  `locals` is the contents of
the `branches` array at that point: exactly the parsed local branches. -/
def parseRemoteLine (locals : List BranchInfo) (branch : String) : Option BranchInfo :=
  let fullName := branch
  let shortName := stripOrigin branch
  let hasLocal := locals.any (fun b => b.name == shortName)
  if hasLocal then none
  else some
    { name := fullName
      displayName := shortName ++ " (remote)"
      isLocal := false
      isRemote := true
      isCurrent := false }

/-- The remote-listing pipeline at `src/switch.ts:103-126`: trim, drop blanks
and symbolic-ref arrow lines, parse, drop the dedup-suppressed entries. -/
def parseRemoteLines (locals : List BranchInfo) (lines : List String) : List BranchInfo :=
  ((lines.map trim).filter (fun b => b ≠ "" && !containsSub "->" b)).filterMap
    (parseRemoteLine locals)

/-- The function `getAllBranches` (`src/switch.ts:78-140`) as a pure function of the two
raw listings: locals first, surviving remote entries appended, and the
current branch filtered out of the result (`src/switch.ts:133`). -/
def getAllBranches (localLines remoteLines : List String) : List BranchInfo :=
  let locals := parseLocalLines localLines
  let branches := locals ++ parseRemoteLines locals remoteLines
  branches.filter (fun b => !b.isCurrent)

/-- Catalog plus whether the remote-listing warning at `src/switch.ts:130`
was printed. -/
structure CatalogResult where
  catalog : List BranchInfo
  remoteWarning : Bool
deriving Repr, DecidableEq

/-- The function `getAllBranches` with its two listing commands as fallible inputs: a
failed local listing propagates as a fatal error (`src/switch.ts:134-139`),
a failed remote listing only warns and proceeds local-only
(`src/switch.ts:129-131`). -/
def getAllBranchesChecked (localListing remoteListing : Except String (List String)) :
    Except String CatalogResult :=
  match localListing with
  | .error e => .error e
  | .ok localLines =>
      let locals := parseLocalLines localLines
      match remoteListing with
      | .error _ => .ok ⟨locals.filter (fun b => !b.isCurrent), true⟩
      | .ok remoteLines =>
          .ok ⟨(locals ++ parseRemoteLines locals remoteLines).filter
                (fun b => !b.isCurrent), false⟩

/-- The two checkout shapes built by `switchToBranch`. -/
inductive CheckoutCommand where
  | createTracking (localName : String) (remoteRef : String)
  | plain (name : String)
deriving Repr, DecidableEq

/-- The three-way checkout decision of `switchToBranch`
(`src/switch.ts:150-161`). -/
def resolve (branch : BranchInfo) : CheckoutCommand :=
  if branch.isRemote && !branch.isLocal then
    .createTracking (stripOrigin branch.name) branch.name
  else if branch.isLocal then
    .plain branch.name
  else
    .plain (stripOrigin branch.name)

/-- The shell text each decision renders to (`src/switch.ts:153,156,160`). -/
def renderCheckout : CheckoutCommand → String
  | .createTracking l r => "git checkout -b " ++ l ++ " " ++ r
  | .plain n => "git checkout " ++ n

/-- The `switchCommand` string variable of `switchToBranch`. -/
def switchCommand (branch : BranchInfo) : String := renderCheckout (resolve branch)

/-- Outcome of the rebase-target decision in `rebaseBranch`. -/
inductive RebaseResolution where
  | skipUndeterminable
  | skipAlreadyOnTarget (target : String)
  | rebase (source : String)
deriving Repr, DecidableEq

/-- The symbolic-ref fallback `out.trim().replace("refs/remotes/origin/", "")`
(`src/switch.ts:206-210`). -/
def symbolicShort (out : String) : String := removeFirst "refs/remotes/origin/" (trim out)

/-- The nested fallback chain of `rebaseBranch` (`src/switch.ts:192-220`):
`hasMain` and `hasMaster` model success of the two `git show-ref` probes,
`symbolicRef` the output of `git symbolic-ref refs/remotes/origin/HEAD`
(`none` models its failure). -/
def discoverTarget (hasMain hasMaster : Bool) (symbolicRef : Option String) :
    Option String :=
  if hasMain then some "main"
  else if hasMaster then some "master"
  else symbolicRef.map symbolicShort

/-- The decision of `rebaseBranch` (`src/switch.ts:192-228`): skip with the
"could not determine" warning when no target is determinable, skip with the
"already on" message when the current branch equals the target, otherwise
rebase onto `origin/<target>`. -/
def resolveUpstreamTarget (currentBranch : String) (hasMain hasMaster : Bool)
    (symbolicRef : Option String) : RebaseResolution :=
  match discoverTarget hasMain hasMaster symbolicRef with
  | none => .skipUndeterminable
  | some baseBranch =>
      if currentBranch == baseBranch then .skipAlreadyOnTarget baseBranch
      else .rebase ("origin/" ++ baseBranch)

/-- The short name under which a catalog entry is displayed and deduplicated:
remote entries have the `origin/` prefix stripped, local entries already
carry their local name. -/
def shortNameOf (b : BranchInfo) : String :=
  if b.isRemote then stripOrigin b.name else b.name

/-! ### Helper lemmas about the two parsing pipelines -/

/-- Every branch parsed from the local listing is classified local. -/
theorem mem_parseLocalLines_classified (l : List String) (b : BranchInfo)
    (hb : b ∈ parseLocalLines l) : b.isLocal = true ∧ b.isRemote = false := by
  simp only [parseLocalLines, List.mem_map] at hb
  obtain ⟨line, -, rfl⟩ := hb
  exact ⟨rfl, rfl⟩

/-- Every surviving remote entry is remote-only, non-current, and its short
name collides with no local branch name it was checked against. -/
theorem mem_parseRemoteLines_classified (locals : List BranchInfo) (r : List String)
    (b : BranchInfo) (hb : b ∈ parseRemoteLines locals r) :
    b.isRemote = true ∧ b.isLocal = false ∧ b.isCurrent = false ∧
      ∀ a ∈ locals, a.name ≠ stripOrigin b.name := by
  simp only [parseRemoteLines, List.mem_filterMap] at hb
  obtain ⟨line, -, hline⟩ := hb
  cases hany : locals.any (fun a => a.name == stripOrigin line) with
  | true =>
      simp only [parseRemoteLine, hany, if_true] at hline
      exact absurd hline (by simp)
  | false =>
      simp only [parseRemoteLine, hany, Bool.false_eq_true, if_false,
        Option.some.injEq] at hline
      subst hline
      refine ⟨rfl, rfl, rfl, ?_⟩
      intro a ha he
      have := List.any_eq_false.mp hany a ha
      simp only [beq_iff_eq] at this
      exact this he

/-- Stripping a leading prefix undoes prepending it. -/
theorem stripLeading_append (pre s : String) : stripLeading pre (pre ++ s) = s := by
  cases pre with
  | mk pd =>
    cases s with
    | mk sd =>
      show stripLeading ⟨pd⟩ ⟨pd ++ sd⟩ = ⟨sd⟩
      simp only [stripLeading]
      rw [if_pos (List.isPrefixOf_iff_prefix.mpr (List.prefix_append pd sd))]
      simp [List.drop_left]

/-- The function `stripOrigin` undoes prepending `origin/`. -/
theorem stripOrigin_append (s : String) : stripOrigin ("origin/" ++ s) = s :=
  stripLeading_append "origin/" s

/-- A line that does not start with `origin/` is left untouched. -/
theorem stripOrigin_of_not_starts (s : String) (h : strStarts s "origin/" = false) :
    stripOrigin s = s := by
  simp only [strStarts] at h
  simp only [stripOrigin, stripLeading, h, Bool.false_eq_true, if_false]

/-! ### Claims about catalog construction -/

/-- C1: dedup invariant of catalog construction — for any short name `N`
carried by a branch parsed from the local lines, the catalog returned by
`getAllBranches` contains no branch with `isRemote = true` whose short name
(the name with the `origin/` prefix stripped) equals `N`: the remote entry
is dropped, never merged. -/
theorem dedup_drops_remote_duplicates (l r : List String) (N : String)
    (h : ∃ b ∈ parseLocalLines l, b.name = N) :
    ∀ b ∈ getAllBranches l r, b.isRemote = true → stripOrigin b.name ≠ N := by
  intro b hb hrem
  obtain ⟨a, ha, rfl⟩ := h
  simp only [getAllBranches, List.mem_filter, List.mem_append] at hb
  rcases hb.1 with hloc | hrm
  · have hcl := mem_parseLocalLines_classified l b hloc
    rw [hcl.2] at hrem
    exact absurd hrem (by simp)
  · have hcr := mem_parseRemoteLines_classified _ _ _ hrm
    exact fun e => hcr.2.2.2 a ha e.symm

/-- Witness for C1 at the Scenario A inputs of the spec: local `dev` exists, so
no remote catalog entry has short name `dev`. -/
theorem dedup_drops_remote_duplicates_witness :
    (∃ b ∈ parseLocalLines ["* main", "dev"], b.name = "dev") ∧
    ∀ b ∈ getAllBranches ["* main", "dev"] ["origin/dev", "origin/feature-x"],
      b.isRemote = true → stripOrigin b.name ≠ "dev" :=
  ⟨by decide, dedup_drops_remote_duplicates _ _ _ (by decide)⟩

/-- C2: for every local listing whose trimmed, non-blank entries contain
exactly one line marked with a leading `* `, exactly one parsed branch has
`isCurrent = true`, and every branch with `isCurrent = true` is absent from
the catalog returned by `getAllBranches`. -/
theorem current_branch_excluded (l r : List String)
    (h : ((l.map trim).filter (fun s => s ≠ "")).countP (fun s => strStarts s "* ") = 1) :
    (parseLocalLines l).countP (fun b => b.isCurrent) = 1 ∧
      ∀ b ∈ parseLocalLines l, b.isCurrent = true → b ∉ getAllBranches l r := by
  constructor
  · rw [parseLocalLines, List.countP_map]
    exact h
  · intro b _ hcur hmem
    simp only [getAllBranches, List.mem_filter, hcur] at hmem
    exact absurd hmem.2 (by simp)

/-- Witness for C2 at the Scenario A local lines of the spec. -/
theorem current_branch_excluded_witness :
    ((["* main", "dev"].map trim).filter (fun s => s ≠ "")).countP
        (fun s => strStarts s "* ") = 1 ∧
    (parseLocalLines ["* main", "dev"]).countP (fun b => b.isCurrent) = 1 ∧
      ∀ b ∈ parseLocalLines ["* main", "dev"], b.isCurrent = true →
        b ∉ getAllBranches ["* main", "dev"] ["origin/dev"] :=
  ⟨by decide, current_branch_excluded ["* main", "dev"] ["origin/dev"] (by decide)⟩

/-- C7: ordering of the catalog — the catalog is exactly the non-current
locally-parsed branches, in source order (a filter of the parsed local
list), followed by the surviving remote entries in source order; the first
group is all-local, the second all-remote-only. -/
theorem catalog_ordering (l r : List String) :
    getAllBranches l r =
      (parseLocalLines l).filter (fun b => !b.isCurrent) ++
        parseRemoteLines (parseLocalLines l) r ∧
    ((parseLocalLines l).filter (fun b => !b.isCurrent)).Sublist (parseLocalLines l) ∧
    (∀ b ∈ (parseLocalLines l).filter (fun b => !b.isCurrent), b.isLocal = true) ∧
    (∀ b ∈ parseRemoteLines (parseLocalLines l) r,
      b.isRemote = true ∧ b.isLocal = false) := by
  refine ⟨?_, List.filter_sublist _, ?_, ?_⟩
  · rw [getAllBranches, List.filter_append]
    congr 1
    refine List.filter_eq_self.mpr ?_
    intro b hb
    have := mem_parseRemoteLines_classified _ _ _ hb
    simp [this.2.2.1]
  · intro b hb
    exact (mem_parseLocalLines_classified l b (List.mem_of_mem_filter hb)).1
  · intro b hb
    exact ⟨(mem_parseRemoteLines_classified _ _ _ hb).1,
      (mem_parseRemoteLines_classified _ _ _ hb).2.1⟩

/-- Witness for C7 at the Scenario A inputs of the spec. -/
theorem catalog_ordering_witness :
    getAllBranches ["* main", "dev"] ["origin/dev", "origin/feature-x"] =
      (parseLocalLines ["* main", "dev"]).filter (fun b => !b.isCurrent) ++
        parseRemoteLines (parseLocalLines ["* main", "dev"])
          ["origin/dev", "origin/feature-x"] ∧
    (⟨"dev", "dev", true, false, false⟩ : BranchInfo).isLocal = true :=
  ⟨(catalog_ordering ["* main", "dev"] ["origin/dev", "origin/feature-x"]).1,
   (catalog_ordering ["* main", "dev"] ["origin/dev", "origin/feature-x"]).2.2.1
     ⟨"dev", "dev", true, false, false⟩ (by decide)⟩

/-- C10 counterexample: with the local listing `["* dev", "dev"]` (current
branch named `dev`, a second local entry also named `dev`) and the remote
line `origin/dev` (short name `dev`), the returned catalog still contains a
branch whose short name is `dev` — so the claim "the final catalog contains
no Branch at all whose short name is N" fails as stated. -/
theorem current_remote_counterexample :
    (∃ b ∈ parseLocalLines ["* dev", "dev"], b.isCurrent = true ∧ b.name = "dev") ∧
    stripOrigin "origin/dev" = "dev" ∧
    (∃ b ∈ getAllBranches ["* dev", "dev"] ["origin/dev"], shortNameOf b = "dev") := by
  decide

/-- C10 amended: if the current local branch has name `N` and every local
entry named `N` is the current one, then the dedup check (run while the
current branch is still in the local list) drops every remote entry with
short name `N`, and the final catalog contains no branch at all — local or
remote — whose short name is `N`. -/
theorem current_remote_suppressed (l r : List String) (N : String)
    (hcur : ∃ b ∈ parseLocalLines l, b.isCurrent = true ∧ b.name = N)
    (huniq : ∀ b ∈ parseLocalLines l, b.name = N → b.isCurrent = true) :
    ∀ b ∈ getAllBranches l r, shortNameOf b ≠ N := by
  intro b hb
  simp only [getAllBranches, List.mem_filter, List.mem_append] at hb
  obtain ⟨hmem, hnc⟩ := hb
  rcases hmem with hloc | hrm
  · have hcl := mem_parseLocalLines_classified l b hloc
    rw [shortNameOf, hcl.2]
    simp only [Bool.false_eq_true, if_false]
    intro he
    rw [huniq b hloc he] at hnc
    exact absurd hnc (by simp)
  · obtain ⟨a, hal, -, haN⟩ := hcur
    have hcr := mem_parseRemoteLines_classified _ _ _ hrm
    rw [shortNameOf, hcr.1, if_pos rfl]
    intro he
    exact hcr.2.2.2 a hal (haN.trans he.symm)

/-- Witness for the amended C10: current branch `dev`, remote `origin/dev`;
nothing with short name `dev` survives in the catalog. -/
theorem current_remote_suppressed_witness :
    (∃ b ∈ parseLocalLines ["* dev", "feature"], b.isCurrent = true ∧ b.name = "dev") ∧
    ∀ b ∈ getAllBranches ["* dev", "feature"] ["origin/dev"], shortNameOf b ≠ "dev" :=
  ⟨by decide, current_remote_suppressed _ _ _ (by decide) (by decide)⟩

/-- C6: failure semantics of catalog construction — a failed local listing
is fatal (the error propagates and no catalog is produced), a failed remote
listing yields a successful local-only catalog with the warning flag set, a
fully successful run yields the full catalog without the warning; the fatal
and non-fatal outcomes are distinct by construction. -/
theorem listing_failure_semantics (localListing remoteListing : Except String (List String)) :
    (∀ e, localListing = .error e →
      getAllBranchesChecked localListing remoteListing = .error e) ∧
    (∀ lines e, localListing = .ok lines → remoteListing = .error e →
      getAllBranchesChecked localListing remoteListing =
        .ok ⟨getAllBranches lines [], true⟩) ∧
    (∀ lines rlines, localListing = .ok lines → remoteListing = .ok rlines →
      getAllBranchesChecked localListing remoteListing =
        .ok ⟨getAllBranches lines rlines, false⟩) ∧
    (∀ (e : String) (c : CatalogResult),
      (Except.error e : Except String CatalogResult) ≠ .ok c) := by
  refine ⟨?_, ?_, ?_, ?_⟩
  · intro e he; subst he; rfl
  · intro lines e hl hr; subst hl; subst hr
    simp [getAllBranchesChecked, getAllBranches, parseRemoteLines]
  · intro lines rlines hl hr; subst hl; subst hr
    rfl
  · intro e c h
    exact absurd h (by simp)

/-- Witness for C6: a failed local listing propagates its error, a failed
remote listing yields the local-only catalog with the warning flag. -/
theorem listing_failure_semantics_witness :
    getAllBranchesChecked (.error "fatal") (.ok ["origin/dev"]) = .error "fatal" ∧
    getAllBranchesChecked (.ok ["* main", "dev"]) (.error "net") =
      .ok ⟨getAllBranches ["* main", "dev"] [], true⟩ :=
  ⟨(listing_failure_semantics _ _).1 "fatal" rfl,
   (listing_failure_semantics _ _).2.1 ["* main", "dev"] "net" rfl rfl⟩

/-! ### Claims about checkout and rebase resolution -/

/-- C3: target discovery tries its steps strictly in order — `main` when the
local `main` probe succeeds; else `master` when the local `master` probe
succeeds; else the short name resolved from the symbolic `origin/HEAD`
output; and when all three fail the result is the undeterminable skip,
which is distinct from every already-on-target skip. -/
theorem upstream_discovery_order (cur : String) (hasMain hasMaster : Bool)
    (sym : Option String) :
    (hasMain = true → discoverTarget hasMain hasMaster sym = some "main") ∧
    (hasMain = false → hasMaster = true →
      discoverTarget hasMain hasMaster sym = some "master") ∧
    (hasMain = false → hasMaster = false → ∀ out, sym = some out →
      discoverTarget hasMain hasMaster sym = some (symbolicShort out)) ∧
    (hasMain = false → hasMaster = false → sym = none →
      resolveUpstreamTarget cur hasMain hasMaster sym = .skipUndeterminable) ∧
    (∀ t, (RebaseResolution.skipUndeterminable : RebaseResolution) ≠
      .skipAlreadyOnTarget t) := by
  refine ⟨?_, ?_, ?_, ?_, ?_⟩ <;> intros <;> subst_vars <;>
    simp [discoverTarget, resolveUpstreamTarget]

/-- Witness for C3: with no local `main`/`master` and a failed symbolic
lookup, the result is the undeterminable skip. -/
theorem upstream_discovery_order_witness :
    discoverTarget false true none = some "master" ∧
    resolveUpstreamTarget "dev" false false none = .skipUndeterminable :=
  ⟨(upstream_discovery_order "dev" false true none).2.1 rfl rfl,
   (upstream_discovery_order "dev" false false none).2.2.2.1 rfl rfl rfl⟩

/-- C4: post-resolution rule — whenever discovery produced the target `t`,
a current branch equal to `t` makes the result the already-on-target skip,
and a current branch different from `t` makes the result a rebase onto
`origin/<t>`, which is never the local target name itself. -/
theorem post_resolution_rule (cur t : String) (hasMain hasMaster : Bool)
    (sym : Option String) (h : discoverTarget hasMain hasMaster sym = some t) :
    (cur = t → resolveUpstreamTarget cur hasMain hasMaster sym =
      .skipAlreadyOnTarget t) ∧
    (cur ≠ t →
      resolveUpstreamTarget cur hasMain hasMaster sym = .rebase ("origin/" ++ t) ∧
        "origin/" ++ t ≠ t) := by
  constructor
  · intro he; subst he
    simp [resolveUpstreamTarget, h]
  · intro hne
    constructor
    · simp [resolveUpstreamTarget, h, hne]
    · intro habs
      have hlen : ("origin/" ++ t).length = t.length := by rw [habs]
      rw [String.length_append, show ("origin/" : String).length = 7 from rfl] at hlen
      omega

/-- Witness for C4: discovery found `main`; on `main` the result is the
already-on-target skip, on `dev` it is a rebase onto `origin/main`. -/
theorem post_resolution_rule_witness :
    resolveUpstreamTarget "main" true false none = .skipAlreadyOnTarget "main" ∧
    resolveUpstreamTarget "dev" true false none = .rebase "origin/main" := by
  refine ⟨(post_resolution_rule "main" "main" true false none rfl).1 rfl, ?_⟩
  rw [((post_resolution_rule "dev" "main" true false none rfl).2 (by decide)).1]
  decide

/-- C5 counterexample: the remote-only catalog entry produced by the remote
line `origin/origin/x` (a remote branch itself named `origin/x`) resolves to
a tracking checkout whose `localName` is `origin/x`, which still contains
the remote-prefix substring `origin/` — so "the resulting localName contains
no remote-prefix substring remaining" fails as stated. -/
theorem resolve_remote_prefix_counterexample :
    getAllBranches ["* main"] ["origin/origin/x"] =
      [⟨"origin/origin/x", "origin/x (remote)", false, true, false⟩] ∧
    resolve ⟨"origin/origin/x", "origin/x (remote)", false, true, false⟩ =
      .createTracking "origin/x" "origin/origin/x" ∧
    containsSub "origin/" "origin/x" = true := by
  decide

/-- C5 amended: for every branch with `isRemote = true` and
`isLocal = false`, `resolve` returns the tracking checkout
`createTracking (stripOrigin name) name`, stripping one leading occurrence
of the remote prefix; when the prefix occurred only as that single leading
occurrence, no remote-prefix substring remains in the local name. -/
theorem resolve_remote_creates_tracking (b : BranchInfo)
    (hr : b.isRemote = true) (hl : b.isLocal = false) :
    resolve b = .createTracking (stripOrigin b.name) b.name ∧
    ∀ rest, b.name = "origin/" ++ rest → containsSub "origin/" rest = false →
      containsSub "origin/" (stripOrigin b.name) = false := by
  constructor
  · simp [resolve, hr, hl]
  · intro rest hname hrest
    rw [hname, stripOrigin_append]
    exact hrest

/-- Witness for the amended C5 at the Scenario B branch of the spec. -/
theorem resolve_remote_creates_tracking_witness :
    resolve ⟨"origin/feature-x", "feature-x (remote)", false, true, false⟩ =
      .createTracking (stripOrigin "origin/feature-x") "origin/feature-x" ∧
    containsSub "origin/" (stripOrigin "origin/feature-x") = false ∧
    stripOrigin "origin/feature-x" = "feature-x" := by
  refine ⟨(resolve_remote_creates_tracking _ rfl rfl).1, ?_, by decide⟩
  exact (resolve_remote_creates_tracking
    ⟨"origin/feature-x", "feature-x (remote)", false, true, false⟩ rfl rfl).2
    "feature-x" (by decide) (by decide)

/-- C8: the checkout decision is deterministic — it is a pure function of
the `name`, `isLocal` and `isRemote` fields of the branch (two branches agreeing
on those three fields resolve identically, whatever their display name or
current flag), and resolving the same branch value twice trivially yields
the same command, as does its rendered shell text. -/
theorem resolve_deterministic (b b' : BranchInfo)
    (h1 : b.name = b'.name) (h2 : b.isLocal = b'.isLocal)
    (h3 : b.isRemote = b'.isRemote) :
    resolve b = resolve b' ∧ resolve b = resolve b ∧
      switchCommand b = switchCommand b' := by
  have hres : resolve b = resolve b' := by
    simp only [resolve, h1, h2, h3]
  exact ⟨hres, rfl, by rw [switchCommand, switchCommand, hres]⟩

/-- Witness for C8: two records for local `dev`, one of them current with a
decorated display name, resolve to the same checkout command. -/
theorem resolve_deterministic_witness :
    resolve ⟨"dev", "dev", true, false, false⟩ =
      resolve ⟨"dev", "dev (current)", true, false, true⟩ ∧
    switchCommand ⟨"dev", "dev", true, false, false⟩ =
      switchCommand ⟨"dev", "dev (current)", true, false, true⟩ :=
  ⟨(resolve_deterministic _ _ rfl rfl rfl).1,
   (resolve_deterministic ⟨"dev", "dev", true, false, false⟩
     ⟨"dev", "dev (current)", true, false, true⟩ rfl rfl rfl).2.2⟩

/-- C9: only the literal leading `origin/` prefix is ever stripped — a
trimmed, non-blank, non-arrow remote line `L` that does not start with
`origin/` keeps its full text as short name, so as long as no local branch
is named exactly `L` (a local named only its final path component does not
match), the entry survives dedup and appears in the catalog with name `L`,
and resolving it yields a tracking checkout whose local name is still the
full `L`, remote name included. -/
theorem nonorigin_remote_preserved (l r : List String) (L : String)
    (htrim : trim L = L) (hne : L ≠ "")
    (harrow : containsSub "->" L = false)
    (hpre : strStarts L "origin/" = false)
    (hmem : L ∈ r)
    (hnolocal : ∀ b ∈ parseLocalLines l, b.name ≠ L) :
    stripOrigin L = L ∧
    (⟨L, L ++ " (remote)", false, true, false⟩ : BranchInfo) ∈ getAllBranches l r ∧
    resolve ⟨L, L ++ " (remote)", false, true, false⟩ = .createTracking L L := by
  have hso : stripOrigin L = L := stripOrigin_of_not_starts L hpre
  refine ⟨hso, ?_, ?_⟩
  · simp only [getAllBranches, List.mem_filter, List.mem_append]
    refine ⟨Or.inr ?_, rfl⟩
    simp only [parseRemoteLines, List.mem_filterMap]
    refine ⟨L, ?_, ?_⟩
    · simp only [List.mem_filter, List.mem_map]
      exact ⟨⟨L, hmem, htrim⟩, by simp [hne, harrow]⟩
    · simp only [parseRemoteLine, hso]
      rw [if_neg ?_]
      · intro h
        obtain ⟨a, ha, hname⟩ := List.any_eq_true.mp h
        exact hnolocal a ha (by simpa using hname)
  · simp [resolve, hso]

/-- Witness for C9: remote line `upstream/feature` with a local branch named
its final path component `feature`: the entry survives with its full name
and resolves to a tracking checkout keeping the `upstream/` part. -/
theorem nonorigin_remote_preserved_witness :
    (∃ b ∈ parseLocalLines ["* main", "feature"], b.name = "feature") ∧
    stripOrigin "upstream/feature" = "upstream/feature" ∧
    (⟨"upstream/feature", "upstream/feature (remote)", false, true, false⟩ :
        BranchInfo) ∈ getAllBranches ["* main", "feature"] ["upstream/feature"] ∧
    resolve ⟨"upstream/feature", "upstream/feature (remote)", false, true, false⟩ =
      .createTracking "upstream/feature" "upstream/feature" := by
  have h := nonorigin_remote_preserved ["* main", "feature"] ["upstream/feature"]
    "upstream/feature" (by decide) (by decide) (by decide) (by decide)
    (by decide) (by decide)
  exact ⟨by decide, h.1, h.2.1, h.2.2⟩

end GitSwitch
